import Mathlib

/-!
Verification of the JSON recovery engine of the slapp-cloud-functions
repository.  The engine's canonical copy is the inline fallback
`parseJSONWithRepair` in `processEvaluation.js` (identical in
`processMarkingSchemeExtraction.js`); a drifted copy lives in the unnamed
simple-evaluation entry point (`src/unnamed/part_000`), and a related
`cleanJSON` helper lives in `index.js`.  All of them are embedded below as
executable functions on `List Char`, together with a model of the strict
JSON parser (`JSON.parse`) they invoke, including the error classification
(error kind + character offset) that the repair loop pattern-matches on.
-/

/-- A parsed JSON value.  Numbers are kept exactly as
`mantissa × 10 ^ exponent` (the syntactic content of the numeric literal),
avoiding any floating-point rounding concerns. -/
inductive JSON where
  | null
  | bool (b : Bool)
  | num (mantissa exponent : Int)
  | str (s : String)
  | arr (elems : List JSON)
  | obj (members : List (String × JSON))

/-- The diagnostic of a failed strict parse, as the repair loop observes it:
the two message families it classifies (the V8 messages
"Expected a comma or a closing brace after a property value, at offset N" and
"Bad control character in a string literal, at offset N") keep their offset;
every other failure is `other`, which the loop never repairs. -/
inductive JErr where
  | expectedCommaOrBrace (pos : Nat)
  | badControl (pos : Nat)
  | other
deriving DecidableEq

/-- Typed failure of the repair engine: `invalidInput` models the
`Invalid raw text provided` throw, `exhausted` the final
`Failed to parse JSON after 5 repair attempts` throw (carrying the last
strict-parser diagnostic). -/
inductive RepairError where
  | invalidInput
  | exhausted (last : JErr)
deriving DecidableEq

/-- Whitespace accepted by strict JSON (`JSON.parse`). -/
def jsonWs (c : Char) : Bool :=
  c = ' ' || c = '\t' || c = '\n' || c = '\r'

/-- Whitespace matched by the JavaScript regexp class `\s` and by
`String.prototype.trim` (the ASCII members plus NBSP and the BOM; the
exotic Unicode space characters never appear in the texts at issue). -/
def jsWs (c : Char) : Bool :=
  c = ' ' || c = '\t' || c = '\n' || c = '\r' || c = '\x0b' || c = '\x0c' ||
  c = ' ' || c = '﻿'

/-- Decimal digit. -/
def isDigitC (c : Char) : Bool := 48 ≤ c.toNat && c.toNat ≤ 57

/-- First character of a JavaScript identifier, per the source's
character class `[a-zA-Z_$]`. -/
def identStart (c : Char) : Bool :=
  ('a' ≤ c && c ≤ 'z') || ('A' ≤ c && c ≤ 'Z') || c = '_' || c = '$'

/-- Subsequent character of a JavaScript identifier, per `[a-zA-Z0-9_$]`. -/
def identCont (c : Char) : Bool := identStart c || isDigitC c

/-- The source's character class `[\w\d}]` (word character, digit or a
closing brace), used on the character before a missing-separator offset. -/
def wordDigitBrace (c : Char) : Bool :=
  ('a' ≤ c && c ≤ 'z') || ('A' ≤ c && c ≤ 'Z') || isDigitC c || c = '_' || c = '}'

/-- Lower-case hexadecimal digit, as produced by `Number.prototype.toString(16)`. -/
def hexDigit (n : Nat) : Char :=
  if n < 10 then Char.ofNat (48 + n) else Char.ofNat (87 + n)

/-- Four-digit lower-case hexadecimal rendering of a code point, as produced
by `toString(16).padStart(4, "0")` for values below 0x10000. -/
def hex4 (n : Nat) : List Char :=
  [hexDigit (n / 4096 % 16), hexDigit (n / 256 % 16), hexDigit (n / 16 % 16),
   hexDigit (n % 16)]

/-- Value of a hexadecimal digit (for the parser's `\uXXXX` escapes). -/
def hexVal (c : Char) : Option Nat :=
  let n := c.toNat
  if 48 ≤ n && n ≤ 57 then some (n - 48)
  else if 97 ≤ n && n ≤ 102 then some (n - 87)
  else if 65 ≤ n && n ≤ 70 then some (n - 55)
  else none

/-- Skip strict-JSON whitespace, advancing the character offset. -/
def skipWsP : List Char → Nat → List Char × Nat
  | c :: cs, p => if jsonWs c then skipWsP cs (p + 1) else (c :: cs, p)
  | [], p => ([], p)

/-- Longest prefix of decimal digits together with the remainder. -/
def takeDigits (cs : List Char) : List Char × List Char :=
  (cs.takeWhile (fun c => isDigitC c), cs.dropWhile (fun c => isDigitC c))

/-- Numeric value of a digit string. -/
def digitsToNat (ds : List Char) : Nat :=
  ds.foldl (fun acc c => 10 * acc + (c.toNat - 48)) 0

/-- Parse the body of a string literal after its opening quote, mirroring the
strict parser: a raw character below 0x20 is the classified
bad-control-character failure at that character's offset; a bad escape or a
missing closing quote is an unclassified failure.  `pos` is the offset of the
first body character. -/
def pstring : Nat → List Char → Nat → List Char →
    Except JErr (String × List Char × Nat)
  | 0, _, _, _ => .error .other
  | _ + 1, [], _, _ => .error .other
  | fuel + 1, c :: rest, pos, acc =>
    if c = '"' then .ok (String.mk acc.reverse, rest, pos + 1)
    else if c = '\\' then
      match rest with
      | [] => .error .other
      | e :: rest2 =>
        if e = '"' then pstring fuel rest2 (pos + 2) ('"' :: acc)
        else if e = '\\' then pstring fuel rest2 (pos + 2) ('\\' :: acc)
        else if e = '/' then pstring fuel rest2 (pos + 2) ('/' :: acc)
        else if e = 'b' then pstring fuel rest2 (pos + 2) ('\x08' :: acc)
        else if e = 'f' then pstring fuel rest2 (pos + 2) ('\x0c' :: acc)
        else if e = 'n' then pstring fuel rest2 (pos + 2) ('\n' :: acc)
        else if e = 'r' then pstring fuel rest2 (pos + 2) ('\r' :: acc)
        else if e = 't' then pstring fuel rest2 (pos + 2) ('\t' :: acc)
        else if e = 'u' then
          match rest2 with
          | h1 :: h2 :: h3 :: h4 :: rest3 =>
            match hexVal h1, hexVal h2, hexVal h3, hexVal h4 with
            | some a, some b, some c2, some d =>
              pstring fuel rest3 (pos + 6)
                (Char.ofNat (((a * 16 + b) * 16 + c2) * 16 + d) :: acc)
            | _, _, _, _ => .error .other
          | _ => .error .other
        else .error .other
    else if c.toNat < 32 then .error (.badControl pos)
    else pstring fuel rest (pos + 1) (c :: acc)

/-- Parse a numeric literal per the strict JSON grammar (no leading zeros,
mandatory digits after a decimal point or an exponent marker). -/
def pnumber (cs : List Char) (pos : Nat) :
    Except JErr ((Int × Int) × List Char × Nat) :=
  let (neg, cs1, p1) : Bool × List Char × Nat :=
    match cs with
    | '-' :: r => (true, r, pos + 1)
    | _ => (false, cs, pos)
  let (intDs, cs2) := takeDigits cs1
  if intDs.isEmpty then .error .other
  else if intDs.headD '0' = '0' && intDs.length > 1 then .error .other
  else
    let p2 := p1 + intDs.length
    let (fracDs, cs3, p3) : List Char × List Char × Nat :=
      match cs2 with
      | '.' :: r =>
        let (ds, r2) := takeDigits r
        (ds, r2, p2 + 1 + ds.length)
      | _ => ([], cs2, p2)
    if (match cs2 with | '.' :: _ => fracDs.isEmpty | _ => false) then
      .error .other
    else
      match cs3 with
      | 'e' :: r | 'E' :: r =>
        let (esgn, r1, pe) : Int × List Char × Nat :=
          match r with
          | '+' :: r2 => (1, r2, p3 + 2)
          | '-' :: r2 => (-1, r2, p3 + 2)
          | _ => (1, r, p3 + 1)
        let (eds, r2) := takeDigits r1
        if eds.isEmpty then .error .other
        else
          let mant : Int := (if neg then -1 else 1) * (digitsToNat (intDs ++ fracDs) : Int)
          .ok ((mant, esgn * (digitsToNat eds : Int) - (fracDs.length : Int)),
               r2, pe + eds.length)
      | _ =>
        let mant : Int := (if neg then -1 else 1) * (digitsToNat (intDs ++ fracDs) : Int)
        .ok ((mant, -(fracDs.length : Int)), cs3, p3)

/-- Record a parsed member the way a JavaScript object literal does: a
repeated property name overwrites the earlier value in place, otherwise the
member is appended. -/
def insertField (fs : List (String × JSON)) (k : String) (v : JSON) :
    List (String × JSON) :=
  if fs.any (fun p => p.1 = k) then
    fs.map (fun p => if p.1 = k then (k, v) else p)
  else fs ++ [(k, v)]

mutual

/-- Parse one JSON value starting at the first non-consumed character.
Mirrors `JSON.parse`: the classified failures carry their offsets, all
others are `other`. -/
def pvalue : Nat → List Char → Nat → Except JErr (JSON × List Char × Nat)
  | 0, _, _ => .error .other
  | _ + 1, [], _ => .error .other
  | fuel + 1, c :: rest, pos =>
    if c = '{' then
      let (cs1, p1) := skipWsP rest (pos + 1)
      match cs1 with
      | '}' :: r => .ok (.obj [], r, p1 + 1)
      | _ => pmembers fuel cs1 p1 []
    else if c = '[' then
      let (cs1, p1) := skipWsP rest (pos + 1)
      match cs1 with
      | ']' :: r => .ok (.arr [], r, p1 + 1)
      | _ => pitems fuel cs1 p1 []
    else if c = '"' then
      match pstring (rest.length + 1) rest (pos + 1) [] with
      | .ok (s, r, p) => .ok (.str s, r, p)
      | .error e => .error e
    else if c = 't' then
      match rest with
      | 'r' :: 'u' :: 'e' :: r => .ok (.bool true, r, pos + 4)
      | _ => .error .other
    else if c = 'f' then
      match rest with
      | 'a' :: 'l' :: 's' :: 'e' :: r => .ok (.bool false, r, pos + 5)
      | _ => .error .other
    else if c = 'n' then
      match rest with
      | 'u' :: 'l' :: 'l' :: r => .ok (.null, r, pos + 4)
      | _ => .error .other
    else if c = '-' || isDigitC c then
      match pnumber (c :: rest) pos with
      | .ok ((m, e), r, p) => .ok (.num m e, r, p)
      | .error e => .error e
    else .error .other

/-- Parse the members of an object after its opening brace (non-empty case).
After each member's value, anything other than a comma or a closing brace is
the classified missing-separator failure at the offending offset. -/
def pmembers (fuel : Nat) (cs : List Char) (pos : Nat)
    (acc : List (String × JSON)) : Except JErr (JSON × List Char × Nat) :=
  match fuel with
  | 0 => .error .other
  | fuel + 1 =>
    match cs with
    | '"' :: r =>
      match pstring (r.length + 1) r (pos + 1) [] with
      | .error e => .error e
      | .ok (key, cs2, p2) =>
        let (cs3, p3) := skipWsP cs2 p2
        match cs3 with
        | ':' :: r3 =>
          let (cs4, p4) := skipWsP r3 (p3 + 1)
          match pvalue fuel cs4 p4 with
          | .error e => .error e
          | .ok (v, cs5, p5) =>
            let (cs6, p6) := skipWsP cs5 p5
            match cs6 with
            | ',' :: r6 =>
              let (cs7, p7) := skipWsP r6 (p6 + 1)
              pmembers fuel cs7 p7 (insertField acc key v)
            | '}' :: r6 => .ok (.obj (insertField acc key v), r6, p6 + 1)
            | _ => .error (.expectedCommaOrBrace p6)
        | _ => .error .other
    | _ => .error .other

/-- Parse the elements of an array after its opening bracket (non-empty
case).  The array separator failure is a different V8 message (naming a
closing bracket), which the repair loop does not classify, hence `other`. -/
def pitems (fuel : Nat) (cs : List Char) (pos : Nat) (acc : List JSON) :
    Except JErr (JSON × List Char × Nat) :=
  match fuel with
  | 0 => .error .other
  | fuel + 1 =>
    match pvalue fuel cs pos with
    | .error e => .error e
    | .ok (v, cs2, p2) =>
      let (cs3, p3) := skipWsP cs2 p2
      match cs3 with
      | ',' :: r3 =>
        let (cs4, p4) := skipWsP r3 (p3 + 1)
        pitems fuel cs4 p4 (acc ++ [v])
      | ']' :: r3 => .ok (.arr (acc ++ [v]), r3, p3 + 1)
      | _ => .error .other

end

/-- The strict JSON parser on a character list: optional leading and
trailing whitespace around exactly one value. -/
def JSONparseL (cs : List Char) : Except JErr JSON :=
  let (cs1, p1) := skipWsP cs 0
  match pvalue (2 * cs.length + 8) cs1 p1 with
  | .error e => .error e
  | .ok (v, rest, p2) =>
    let (rest2, _) := skipWsP rest p2
    match rest2 with
    | [] => .ok v
    | _ => .error .other

/-- The strict JSON parser on a string (`JSON.parse`). -/
def JSONparse (s : String) : Except JErr JSON := JSONparseL s.data

/-- The backtick character (written by code point to keep it out of the
source text). -/
def btick : Char := Char.ofNat 96

/-- The single-quote character. -/
def squote : Char := Char.ofNat 39

/-- ASCII lower-casing, for the case-insensitive fence pattern. -/
def charLower (c : Char) : Char :=
  if 'A' ≤ c && c ≤ 'Z' then Char.ofNat (c.toNat + 32) else c

/-- Match a literal pattern (stored lower-case) as a prefix, optionally
case-insensitively, returning the remainder on success. -/
def matchPrefixCI (ci : Bool) : List Char → List Char → Option (List Char)
  | [], cs => some cs
  | _ :: _, [] => none
  | p :: ps, c :: cs =>
    if c = p || (ci && charLower c = p) then matchPrefixCI ci ps cs else none

/-- JavaScript `String.prototype.trim`. -/
def jsTrim (cs : List Char) : List Char :=
  ((cs.dropWhile (fun c => jsWs c)).reverse.dropWhile (fun c => jsWs c)).reverse

/-- One global fence-removal pass: each occurrence of the pattern followed
by a run of `\s` (which subsumes the regexp's optional trailing newline) is
deleted, scanning resuming after the match, exactly as a global
`String.prototype.replace` does. -/
def stripFenceAux (pat : List Char) (ci : Bool) : Nat → List Char → List Char
  | 0, cs => cs
  | _ + 1, [] => []
  | fuel + 1, c :: cs =>
    match matchPrefixCI ci pat (c :: cs) with
    | some rest => stripFenceAux pat ci fuel (rest.dropWhile (fun x => jsWs x))
    | none => c :: stripFenceAux pat ci fuel cs

/-- The two markdown-fence removal substitutions (first the fence with a
`json` tag — case-insensitive in the repair engine, case-sensitive in
`cleanJSON` — then the bare fence). -/
def stripFences (ci : Bool) (cs : List Char) : List Char :=
  let cs1 := stripFenceAux [btick, btick, btick, 'j', 's', 'o', 'n'] ci
    (cs.length + 1) cs
  stripFenceAux [btick, btick, btick] false (cs1.length + 1) cs1

/-- Index of the first occurrence of a character (`String.prototype.indexOf`,
with absence as `none` instead of `-1`). -/
def firstIdxOf (cs : List Char) (c : Char) : Option Nat :=
  cs.findIdx? (fun x => x = c)

/-- Index of the last occurrence of a character (`lastIndexOf`). -/
def lastIdxOf (cs : List Char) (c : Char) : Option Nat :=
  match cs.reverse.findIdx? (fun x => x = c) with
  | some k => some (cs.length - 1 - k)
  | none => none

/-- The guard of the boundary-slicing step:
`firstBrace >= 0 && lastBrace > firstBrace`. -/
def braceGuard (cs : List Char) : Bool :=
  match firstIdxOf cs '{', lastIdxOf cs '}' with
  | some f, some l => f < l
  | _, _ => false

/-- Boundary extraction: slice to the inclusive span from the first `{` to
the last `}` when the guard holds, and otherwise leave the text unchanged
(the source has no else-branch and no failure here). -/
def sliceBraces (cs : List Char) : List Char :=
  match firstIdxOf cs '{', lastIdxOf cs '}' with
  | some f, some l => if f < l then (cs.drop f).take (l - f + 1) else cs
  | _, _ => cs

/-- The unquoted-property-name substitution
`([{,]\s*)([a-zA-Z_$][a-zA-Z0-9_$]*)\s*:` → `$1"$2":`, as a left-to-right
scan with the regexp's deterministic greedy matching. -/
def quoteKeysAux : Nat → List Char → List Char
  | 0, cs => cs
  | _ + 1, [] => []
  | fuel + 1, c :: cs =>
    if c = '{' || c = ',' then
      let ws1 := cs.takeWhile (fun x => jsWs x)
      let r1 := cs.drop ws1.length
      match r1 with
      | i0 :: r2 =>
        if identStart i0 then
          let identRest := r2.takeWhile (fun x => identCont x)
          let r3 := r2.drop identRest.length
          let ws2 := r3.takeWhile (fun x => jsWs x)
          let r4 := r3.drop ws2.length
          match r4 with
          | ':' :: r5 =>
            c :: (ws1 ++ '"' :: i0 :: (identRest ++ '"' :: ':' ::
              quoteKeysAux fuel r5))
          | _ => c :: quoteKeysAux fuel cs
        else c :: quoteKeysAux fuel cs
      | [] => c :: quoteKeysAux fuel cs
    else c :: quoteKeysAux fuel cs

/-- The repair engine's unquoted-key rewrite. -/
def quoteKeys (cs : List Char) : List Char := quoteKeysAux (cs.length + 1) cs

/-- The `cleanJSON` variant of the unquoted-key rewrite, whose replacement
callback leaves the match unchanged when it already contains a double quote
(the pattern can never match a quote, but the check is transcribed as
written). -/
def quoteKeysCBAux : Nat → List Char → List Char
  | 0, cs => cs
  | _ + 1, [] => []
  | fuel + 1, c :: cs =>
    if c = '{' || c = ',' then
      let ws1 := cs.takeWhile (fun x => jsWs x)
      let r1 := cs.drop ws1.length
      match r1 with
      | i0 :: r2 =>
        if identStart i0 then
          let identRest := r2.takeWhile (fun x => identCont x)
          let r3 := r2.drop identRest.length
          let ws2 := r3.takeWhile (fun x => jsWs x)
          let r4 := r3.drop ws2.length
          match r4 with
          | ':' :: r5 =>
            if (c :: (ws1 ++ i0 :: (identRest ++ ws2 ++ [':']))).contains '"' then
              c :: (ws1 ++ i0 :: (identRest ++ ws2 ++ ':' ::
                quoteKeysCBAux fuel r5))
            else
              c :: (ws1 ++ '"' :: i0 :: (identRest ++ '"' :: ':' ::
                quoteKeysCBAux fuel r5))
          | _ => c :: quoteKeysCBAux fuel cs
        else c :: quoteKeysCBAux fuel cs
      | [] => c :: quoteKeysCBAux fuel cs
    else c :: quoteKeysCBAux fuel cs

/-- `cleanJSON`'s unquoted-key rewrite. -/
def quoteKeysCB (cs : List Char) : List Char := quoteKeysCBAux (cs.length + 1) cs

/-- The trailing-comma substitution `,(\s*[}\]])` → `$1`. -/
def removeTrailingCommasAux : Nat → List Char → List Char
  | 0, cs => cs
  | _ + 1, [] => []
  | fuel + 1, c :: cs =>
    if c = ',' then
      let ws := cs.takeWhile (fun x => jsWs x)
      let r := cs.drop ws.length
      match r with
      | b :: r2 =>
        if b = '}' || b = ']' then ws ++ b :: removeTrailingCommasAux fuel r2
        else c :: removeTrailingCommasAux fuel cs
      | [] => c :: removeTrailingCommasAux fuel cs
    else c :: removeTrailingCommasAux fuel cs

/-- Trailing-comma removal. -/
def removeTrailingCommas (cs : List Char) : List Char :=
  removeTrailingCommasAux (cs.length + 1) cs

/-- The String-State Scanner of the repair engine
(`processEvaluation.js` / `processMarkingSchemeExtraction.js`): a single
pass over the text tracking `inString` and `escapeNext`; inside a string a
raw newline, carriage return or tab becomes its two-character escape and
any other character below 0x20 becomes a `\u00XX` escape. -/
def fixCtrl : Bool → Bool → List Char → List Char
  | _, _, [] => []
  | inStr, true, c :: cs => c :: fixCtrl inStr false cs
  | inStr, false, c :: cs =>
    if c = '\\' then c :: fixCtrl inStr true cs
    else if c = '"' then c :: fixCtrl (!inStr) false cs
    else if inStr then
      if c = '\n' then '\\' :: 'n' :: fixCtrl inStr false cs
      else if c = '\r' then '\\' :: 'r' :: fixCtrl inStr false cs
      else if c = '\t' then '\\' :: 't' :: fixCtrl inStr false cs
      else if c.toNat < 32 then '\\' :: 'u' :: (hex4 c.toNat ++ fixCtrl inStr false cs)
      else c :: fixCtrl inStr false cs
    else c :: fixCtrl inStr false cs

/-- The String-State Scanner, started outside any string. -/
def fixControlChars (cs : List Char) : List Char := fixCtrl false false cs

/-- The drifted scanner of the simple-evaluation entry point
(`src/unnamed/part_000`): inside a string a raw newline, carriage return or
tab is replaced by a single space, and every other character — including
the remaining control characters — passes through unchanged. -/
def fixCtrlP0 : Bool → Bool → List Char → List Char
  | _, _, [] => []
  | inStr, true, c :: cs => c :: fixCtrlP0 inStr false cs
  | inStr, false, c :: cs =>
    if c = '\\' then c :: fixCtrlP0 inStr true cs
    else if c = '"' then c :: fixCtrlP0 (!inStr) false cs
    else if inStr && (c = '\n' || c = '\r' || c = '\t') then
      ' ' :: fixCtrlP0 inStr false cs
    else c :: fixCtrlP0 inStr false cs

/-- The part_000 scanner, started outside any string. -/
def fixControlCharsP0 (cs : List Char) : List Char := fixCtrlP0 false false cs

/-- The in-loop bad-control-character repair: the global substitution
`[\x00-\x1F]` → `\u00XX` applied to every position of the working text,
inside and outside string literals alike. -/
def escCtrlChar (c : Char) : List Char :=
  if c.toNat < 32 then '\\' :: 'u' :: hex4 c.toNat else [c]

/-- The in-loop bad-control-character repair over the whole text. -/
def escapeAllControls (cs : List Char) : List Char :=
  (cs.map escCtrlChar).flatten

/-- Insert a comma before position `j`. -/
def insertAt (cs : List Char) (j : Nat) : List Char :=
  cs.take j ++ ',' :: cs.drop j

/-- First non-`\s` position at or after `j` (the `while ... /\s/` skip). -/
def wsEnd (cs : List Char) (j : Nat) : Nat :=
  j + ((cs.drop j).takeWhile (fun x => jsWs x)).length

/-- A character that opens a new value in the backward scan's check. -/
def isOpenerCh (c : Char) : Bool := c = '"' || c = '{' || c = '['

/-- One probe of the backward scan at index `i`: an unescaped double quote
whose next non-whitespace character exists and opens a value yields the
insertion position (that non-whitespace position). -/
def checkAt (cs : List Char) (i : Nat) : Option Nat :=
  if cs.getD i ' ' = '"' && (i = 0 || !(cs.getD (i - 1) ' ' = '\\')) then
    let j := wsEnd cs (i + 1)
    if j < cs.length && isOpenerCh (cs.getD j ' ') then some j else none
  else none

/-- The backward scan `for (let i = position - 1; i >= max(0, position - 50); i--)`,
descending from `i` to `lo` and returning the first (highest-index) hit. -/
def backScanAux (cs : List Char) (lo : Nat) : Nat → Option Nat
  | 0 => if lo = 0 then checkAt cs 0 else none
  | i + 1 =>
    if i + 1 < lo then none
    else
      match checkAt cs (i + 1) with
      | some j => some j
      | none => backScanAux cs lo i

/-- The direct-insertion condition of the missing-separator repair: the
character before the offset ends a value (`"` or `[\w\d}]`) and the
character at the offset is a double quote, `}` or `]`. -/
def fwdCond (cs : List Char) (pos : Nat) : Bool :=
  (match pos with
   | 0 => false
   | p + 1 =>
     let b := cs.getD p ' '
     b = '"' || wordDigitBrace b) &&
  (let a := cs.getD pos ' '
   a = '"' || a = '}' || a = ']')

/-- The missing-separator repair of the retry loop: at an in-range offset,
insert a comma at the offset when `fwdCond` holds, and otherwise run the
bounded (50-character) backward scan and insert at its hit, if any; an
out-of-range offset leaves the text unchanged. -/
def fixMissingComma (cs : List Char) (pos : Nat) : List Char :=
  if pos < cs.length then
    if fwdCond cs pos then insertAt cs pos
    else
      match pos with
      | 0 => cs
      | p + 1 =>
        match backScanAux cs (pos - 50) p with
        | some j => insertAt cs j
        | none => cs
  else cs

/-- Increment the parse-call counter of a loop outcome. -/
def bump (r : Except RepairError JSON × Nat) : Except RepairError JSON × Nat :=
  (r.1, r.2 + 1)

/-- The final parse attempted after the loop gives up: a success is still
returned, a failure becomes the `exhausted` error. -/
def finalParse (cs : List Char) : Except RepairError JSON × Nat :=
  match JSONparseL cs with
  | .ok v => (.ok v, 1)
  | .error e => (.error (.exhausted e), 1)

/-- The bounded retry loop (`while (parseAttempts < maxAttempts)`), with
`fuel = maxAttempts - parseAttempts`.  A success returns immediately; a
classified failure (missing separator or bad control character, both of
which carry an offset) applies its repair and retries while attempts
remain; anything else breaks out to the final parse.  The second component
counts strict-parse calls. -/
def repairLoop : Nat → List Char → Except RepairError JSON × Nat
  | 0, cs => finalParse cs
  | fuel + 1, cs =>
    match JSONparseL cs with
    | .ok v => (.ok v, 1)
    | .error e =>
      if fuel = 0 then bump (finalParse cs)
      else
        match e with
        | .expectedCommaOrBrace p => bump (repairLoop fuel (fixMissingComma cs p))
        | .badControl _ => bump (repairLoop fuel (escapeAllControls cs))
        | .other => bump (finalParse cs)

/-- The attempt ceiling. -/
def maxAttempts : Nat := 5

/-- The normalization applied once before the retry loop: trim, strip
fences, trim, slice to the brace span, quote bare keys, drop trailing
commas, and run the String-State Scanner. -/
def preprocess (cs : List Char) : List Char :=
  fixControlChars (removeTrailingCommas (quoteKeys (sliceBraces
    (jsTrim (stripFences true (jsTrim cs))))))

/-- The repair engine on a character list: the `!rawText` guard, the
normalization, then the bounded retry loop.  The second component counts
strict-parse calls (zero when the input is rejected outright). -/
def repairEngine (cs : List Char) : Except RepairError JSON × Nat :=
  if cs = [] then (.error .invalidInput, 0)
  else repairLoop maxAttempts (preprocess cs)

/-- `parseJSONWithRepair` of `processEvaluation.js` (the engine's canonical
copy), with its strict-parse call count. -/
def parseJSONWithRepairCount (s : String) : Except RepairError JSON × Nat :=
  repairEngine s.data

/-- `parseJSONWithRepair`: result only. -/
def parseJSONWithRepair (s : String) : Except RepairError JSON :=
  (repairEngine s.data).1

/-- The JavaScript entry point, with `none` standing for a non-string
argument (`typeof rawText !== 'string'`, or a missing/null value, which the
`!rawText` guard also rejects). -/
def parseJSONWithRepairJS : Option String → Except RepairError JSON × Nat
  | none => (.error .invalidInput, 0)
  | some s => parseJSONWithRepairCount s

/-- Failure of the part_000 fallback: the invalid-input throw, or the
strict parser's own exception propagated without any retry loop. -/
inductive P0Error where
  | invalidInput
  | syntaxError (e : JErr)
deriving DecidableEq

/-- The drifted fallback of the simple-evaluation entry point
(`src/unnamed/part_000`): the same normalization, the drifted scanner, and
a single strict parse with no retry loop. -/
def parseJSONWithRepairP0 (s : String) : Except P0Error JSON :=
  if s.data = [] then .error .invalidInput
  else
    match JSONparseL (fixControlCharsP0 (removeTrailingCommas (quoteKeys
      (sliceBraces (jsTrim (stripFences true (jsTrim s.data))))))) with
    | .ok v => .ok v
    | .error e => .error (.syntaxError e)

/-- Body of a single-quoted string for `cleanJSON`'s substitution: the
regexp content `((?:[^'\\]|\\.)*)` followed by the closing single quote,
returned together with the remainder (deterministic, since the content
class excludes both the quote and the backslash). -/
def sqContent : Nat → List Char → Option (List Char × List Char)
  | 0, _ => none
  | _ + 1, [] => none
  | fuel + 1, c :: cs =>
    if c = squote then some ([], cs)
    else if c = '\\' then
      match cs with
      | [] => none
      | x :: cs2 =>
        match sqContent fuel cs2 with
        | some (content, rest) => some ('\\' :: x :: content, rest)
        | none => none
    else
      match sqContent fuel cs with
      | some (content, rest) => some (c :: content, rest)
      | none => none

/-- `cleanJSON`'s single-quote-to-double-quote substitution
`([:,\[])\s*'((?:[^'\\]|\\.)*)'(\s*[,}\]])` → `$1 "$2"$3` as a
left-to-right global replace. -/
def singleQuoteAux : Nat → List Char → List Char
  | 0, cs => cs
  | _ + 1, [] => []
  | fuel + 1, c :: cs =>
    if c = ':' || c = ',' || c = '[' then
      let ws1 := cs.takeWhile (fun x => jsWs x)
      let r1 := cs.drop ws1.length
      match r1 with
      | q :: r2 =>
        if q = squote then
          match sqContent (r2.length + 1) r2 with
          | some (content, r3) =>
            let ws2 := r3.takeWhile (fun x => jsWs x)
            let r4 := r3.drop ws2.length
            match r4 with
            | b :: r5 =>
              if b = ',' || b = '}' || b = ']' then
                c :: ' ' :: '"' :: (content ++ '"' :: (ws2 ++ b ::
                  singleQuoteAux fuel r5))
              else c :: singleQuoteAux fuel cs
            | [] => c :: singleQuoteAux fuel cs
          | none => c :: singleQuoteAux fuel cs
        else c :: singleQuoteAux fuel cs
      | [] => c :: singleQuoteAux fuel cs
    else c :: singleQuoteAux fuel cs

/-- `cleanJSON`'s single-quoted-value rewrite. -/
def singleQuoteRewrite (cs : List Char) : List Char :=
  singleQuoteAux (cs.length + 1) cs

/-- `cleanJSON`'s first missing-comma pass: a string-state walk that, outside
strings, inserts a comma between `}`/`]` and a following `{`/`[`/`"`
(the pass's other branch, on the previous character, performs no change in
the source and is omitted as the no-op it is). -/
def mcScan1 : Bool → Bool → List Char → List Char
  | _, _, [] => []
  | inStr, true, c :: cs => c :: mcScan1 inStr false cs
  | inStr, false, c :: cs =>
    if c = '\\' then c :: mcScan1 inStr true cs
    else if c = '"' then c :: mcScan1 (!inStr) false cs
    else if !inStr && (c = '}' || c = ']') &&
        (match cs with
         | n :: _ => n = '{' || n = '[' || n = '"'
         | [] => false) then
      c :: ',' :: mcScan1 inStr false cs
    else c :: mcScan1 inStr false cs

/-- `cleanJSON`'s `\\\\"` → `\\"` substitution. -/
def fixDblEscAux : Nat → List Char → List Char
  | 0, cs => cs
  | _ + 1, [] => []
  | fuel + 1, c :: cs =>
    if c = '\\' then
      match cs with
      | c2 :: c3 :: rest =>
        if c2 = '\\' && c3 = '"' then '\\' :: '"' :: fixDblEscAux fuel rest
        else c :: fixDblEscAux fuel cs
      | _ => c :: fixDblEscAux fuel cs
    else c :: fixDblEscAux fuel cs

/-- The double-escaped-quote fix. -/
def fixDblEsc (cs : List Char) : List Char := fixDblEscAux (cs.length + 1) cs

/-- The state of `cleanJSON`'s second missing-comma pass. -/
structure MC2State where
  inStr : Bool
  esc : Bool
  inArr : Bool
  inObj : Bool
  braceD : Int
  bracketD : Int

/-- The initial state of the second missing-comma pass. -/
def mc2Init : MC2State :=
  { inStr := false, esc := false, inArr := false, inObj := false,
    braceD := 0, bracketD := 0 }

/-- `cleanJSON`'s second missing-comma pass, transcribed rule for rule.
`idx` is the input index and `racc` the reversed output so far; the
previous and before-previous output characters are read back from `racc`
exactly as the source reads `result2`.  (Each insertion rule requires the
current character to be `"`, `{` or `[`, all of which are consumed by the
earlier quote/bracket branches, so the rules never fire; they are kept as
written.) -/
def mcScan2 (st : MC2State) (idx : Nat) (racc : List Char) :
    List Char → List Char
  | [] => racc.reverse
  | c :: cs =>
    let prevC : Option Char := if idx > 0 then racc.head? else none
    let beforeP : Option Char := if idx > 1 then racc.tail.head? else none
    if st.esc then mcScan2 { st with esc := false } (idx + 1) (c :: racc) cs
    else if c = '\\' then
      mcScan2 { st with esc := true } (idx + 1) (c :: racc) cs
    else if c = '"' then
      mcScan2 { st with inStr := !st.inStr } (idx + 1) (c :: racc) cs
    else if !st.inStr then
      if c = '{' then
        mcScan2 { st with inObj := true, braceD := st.braceD + 1 } (idx + 1)
          (c :: racc) cs
      else if c = '}' then
        let d := st.braceD - 1
        mcScan2 { st with braceD := d, inObj := if d = 0 then false else st.inObj }
          (idx + 1) (c :: racc) cs
      else if c = '[' then
        mcScan2 { st with inArr := true, bracketD := st.bracketD + 1 } (idx + 1)
          (c :: racc) cs
      else if c = ']' then
        let d := st.bracketD - 1
        mcScan2 { st with bracketD := d, inArr := if d = 0 then false else st.inArr }
          (idx + 1) (c :: racc) cs
      else if prevC = some '"' && c = '"' && st.inArr &&
          beforeP ≠ some ',' && beforeP ≠ some '[' then
        mcScan2 st (idx + 1) (c :: ',' :: '"' :: racc.tail) cs
      else if prevC = some '"' && c = '{' && st.inArr &&
          beforeP ≠ some ',' && beforeP ≠ some '[' then
        mcScan2 st (idx + 1) (c :: ',' :: '"' :: racc.tail) cs
      else if prevC = some '}' && c = '{' && st.inArr &&
          beforeP ≠ some ',' && beforeP ≠ some '[' then
        mcScan2 st (idx + 1) (c :: ',' :: '}' :: racc.tail) cs
      else if prevC = some ']' && c = '[' &&
          beforeP ≠ some ',' && beforeP ≠ some '[' then
        mcScan2 st (idx + 1) (c :: ',' :: ']' :: racc.tail) cs
      else if prevC = some '}' && c = '"' && st.inObj &&
          beforeP ≠ some ',' && beforeP ≠ some '{' then
        mcScan2 st (idx + 1) (c :: ',' :: '}' :: racc.tail) cs
      else mcScan2 st (idx + 1) (c :: racc) cs
    else mcScan2 st (idx + 1) (c :: racc) cs

/-- `cleanJSON`'s duplicate-comma collapse `,+` → `,`. -/
def collapseCommasAux : Nat → List Char → List Char
  | 0, cs => cs
  | _ + 1, [] => []
  | fuel + 1, c :: cs =>
    if c = ',' then ',' :: collapseCommasAux fuel (cs.dropWhile (fun x => x = ','))
    else c :: collapseCommasAux fuel cs

/-- Duplicate-comma collapse. -/
def collapseCommas (cs : List Char) : List Char :=
  collapseCommasAux (cs.length + 1) cs

/-- `cleanJSON` of `index.js`: fence stripping (case-sensitive here), trim,
boundary slice, unquoted-key rewrite (callback form), single-quote rewrite,
first missing-comma pass, trailing-comma removal, double-escaped-quote fix,
second missing-comma pass, comma cleanup, final trim. -/
def cleanJSONL (cs : List Char) : List Char :=
  let s1 := jsTrim (stripFences false cs)
  let s2 := sliceBraces s1
  let s3 := quoteKeysCB s2
  let s4 := singleQuoteRewrite s3
  let s5 := mcScan1 false false s4
  let s6 := removeTrailingCommas s5
  let s7 := fixDblEsc s6
  let s8 := mcScan2 mc2Init 0 [] s7
  let s9 := removeTrailingCommas (collapseCommas s8)
  jsTrim s9

/-- `cleanJSON` on strings. -/
def cleanJSON (s : String) : String := String.mk (cleanJSONL s.data)

/-- The no-unescaped-control-character check: walk the text with the same
string-state automaton as the scanner (escape first, then backslash, then
quote toggle) and report `false` exactly when an unescaped character below
0x20 occurs while inside a string literal. -/
def ctrlOK : Bool → Bool → List Char → Bool
  | _, _, [] => true
  | inStr, true, _ :: cs => ctrlOK inStr false cs
  | inStr, false, c :: cs =>
    if c = '\\' then ctrlOK inStr true cs
    else if c = '"' then ctrlOK (!inStr) false cs
    else if inStr && c.toNat < 32 then false
    else ctrlOK inStr false cs

/-- The check started outside any string. -/
def checkNoCtrl (cs : List Char) : Bool := ctrlOK false false cs

/-- Modelled from the spec (§4.4, the missing-separator repair as the spec
words it): identical to `fixMissingComma` except that the direct insertion
at the offset requires the character at the offset to OPEN a new value
(a double quote, `{` or `[`), where the code instead tests for a double
quote, `}` or `]`.  Used only to compare the spec's description against
the code. -/
def specMissingComma (cs : List Char) (pos : Nat) : List Char :=
  if pos < cs.length then
    if (match pos with
        | 0 => false
        | p + 1 =>
          let b := cs.getD p ' '
          b = '"' || wordDigitBrace b) &&
       isOpenerCh (cs.getD pos ' ') then insertAt cs pos
    else
      match pos with
      | 0 => cs
      | p + 1 =>
        match backScanAux cs (pos - 50) p with
        | some j => insertAt cs j
        | none => cs
  else cs

/-- Look up a top-level field of a parsed object. -/
def getField (v : JSON) (k : String) : Option JSON :=
  match v with
  | .obj fs => (fs.find? (fun p => p.1 = k)).map (fun p => p.2)
  | _ => none

/-- The text modification selected by the retry loop for a classified
failure (an unclassified failure modifies nothing). -/
def stepText (cs : List Char) (e : JErr) : List Char :=
  match e with
  | .expectedCommaOrBrace p => fixMissingComma cs p
  | .badControl _ => escapeAllControls cs
  | .other => cs

/-- `Reaches a t`: the working text `t` is obtainable from `a` by applying,
zero or more times, the repair that the retry loop selects for the strict
parser's failure on the current text. -/
inductive Reaches : List Char → List Char → Prop
  | refl (cs : List Char) : Reaches cs cs
  | step {a t : List Char} (e : JErr) :
      JSONparseL a = .error e → Reaches (stepText a e) t → Reaches a t

/-- The sixteen hexadecimal digit characters are printable and are neither
a backslash nor a double quote. -/
theorem hexDigit_ok : ∀ n < 16,
    ¬ hexDigit n = '\\' ∧ ¬ hexDigit n = '"' ∧ ¬ (hexDigit n).toNat < 32 := by
  decide

/-- A backslash followed by any character passes the control check as an
escape pair. -/
theorem ctrlOK_esc_pair (inStr : Bool) (y : Char) (rest : List Char) :
    ctrlOK inStr false ('\\' :: y :: rest) = ctrlOK inStr false rest := by
  simp [ctrlOK]

/-- A printable character other than backslash and quote is transparent to
the control check. -/
theorem ctrlOK_plain (inStr : Bool) (x : Char) (rest : List Char)
    (h1 : ¬ x = '\\') (h2 : ¬ x = '"') (h3 : ¬ x.toNat < 32) :
    ctrlOK inStr false (x :: rest) = ctrlOK inStr false rest := by
  simp [ctrlOK, h1, h2, h3]

/-- The canonical String-State Scanner leaves no unescaped control
character in any state. -/
theorem ctrlOK_fixCtrl : ∀ (cs : List Char) (inStr esc : Bool),
    ctrlOK inStr esc (fixCtrl inStr esc cs) = true := by
  intro cs
  induction cs with
  | nil => intro inStr esc; cases esc <;> simp [fixCtrl, ctrlOK]
  | cons c cs ih =>
    intro inStr esc
    cases esc with
    | true => exact ih inStr false
    | false =>
      by_cases hb : c = '\\'
      · subst hb; exact ih inStr true
      · by_cases hq : c = '"'
        · subst hq; exact ih (!inStr) false
        · cases inStr with
          | false =>
            simp only [fixCtrl, if_neg hb, if_neg hq, Bool.false_eq_true,
              if_false]
            simp only [ctrlOK, if_neg hb, if_neg hq, Bool.false_and,
              Bool.false_eq_true, if_false]
            exact ih false false
          | true =>
            by_cases hn : c = '\n'
            · subst hn; exact ih true false
            · by_cases hr : c = '\r'
              · subst hr; exact ih true false
              · by_cases ht : c = '\t'
                · subst ht; exact ih true false
                · by_cases hc : c.toNat < 32
                  · simp only [fixCtrl, if_neg hb, if_neg hq, if_true,
                      if_neg hn, if_neg hr, if_neg ht, if_pos hc]
                    show ctrlOK true false
                      ('\\' :: 'u' :: (hex4 c.toNat ++ fixCtrl true false cs)) = true
                    rw [ctrlOK_esc_pair]
                    have m4 : c.toNat / 4096 % 16 < 16 := Nat.mod_lt _ (by norm_num)
                    have m3 : c.toNat / 256 % 16 < 16 := Nat.mod_lt _ (by norm_num)
                    have m2 : c.toNat / 16 % 16 < 16 := Nat.mod_lt _ (by norm_num)
                    have m1 : c.toNat % 16 < 16 := Nat.mod_lt _ (by norm_num)
                    obtain ⟨a1, a2, a3⟩ := hexDigit_ok _ m4
                    obtain ⟨b1, b2, b3⟩ := hexDigit_ok _ m3
                    obtain ⟨d1, d2, d3⟩ := hexDigit_ok _ m2
                    obtain ⟨e1, e2, e3⟩ := hexDigit_ok _ m1
                    show ctrlOK true false (hexDigit (c.toNat / 4096 % 16) ::
                      hexDigit (c.toNat / 256 % 16) :: hexDigit (c.toNat / 16 % 16) ::
                      hexDigit (c.toNat % 16) :: fixCtrl true false cs) = true
                    rw [ctrlOK_plain _ _ _ a1 a2 a3, ctrlOK_plain _ _ _ b1 b2 b3,
                      ctrlOK_plain _ _ _ d1 d2 d3, ctrlOK_plain _ _ _ e1 e2 e3]
                    exact ih true false
                  · simp only [fixCtrl, if_neg hb, if_neg hq, if_true,
                      if_neg hn, if_neg hr, if_neg ht, if_neg hc]
                    rw [ctrlOK_plain _ _ _ hb hq hc]
                    exact ih true false

/-- Every character emitted by the in-loop control escape is printable. -/
theorem escCtrlChar_ctrlFree (c : Char) : ∀ x ∈ escCtrlChar c, 32 ≤ x.toNat := by
  intro x hx
  unfold escCtrlChar at hx
  by_cases hc : c.toNat < 32
  · rw [if_pos hc] at hx
    simp only [List.mem_cons, hex4, List.mem_singleton, List.not_mem_nil,
      or_false] at hx
    rcases hx with h | h | h | h | h | h
    · subst h; decide
    · subst h; decide
    · subst h
      exact Nat.le_of_not_lt (hexDigit_ok _ (Nat.mod_lt _ (by norm_num))).2.2
    · subst h
      exact Nat.le_of_not_lt (hexDigit_ok _ (Nat.mod_lt _ (by norm_num))).2.2
    · subst h
      exact Nat.le_of_not_lt (hexDigit_ok _ (Nat.mod_lt _ (by norm_num))).2.2
    · subst h
      exact Nat.le_of_not_lt (hexDigit_ok _ (Nat.mod_lt _ (by norm_num))).2.2
  · rw [if_neg hc] at hx
    simp only [List.mem_singleton] at hx
    subst hx
    exact Nat.le_of_not_lt hc

/-- The in-loop control escape distributes over cons. -/
theorem escapeAllControls_cons (c : Char) (cs : List Char) :
    escapeAllControls (c :: cs) = escCtrlChar c ++ escapeAllControls cs := by
  simp [escapeAllControls]

/-- The output of the in-loop control escape contains no control
character at all. -/
theorem escapeAllControls_ctrlFree (cs : List Char) :
    ∀ x ∈ escapeAllControls cs, 32 ≤ x.toNat := by
  induction cs with
  | nil => intro x hx; simp [escapeAllControls] at hx
  | cons c cs ih =>
    intro x hx
    rw [escapeAllControls_cons, List.mem_append] at hx
    rcases hx with h | h
    · exact escCtrlChar_ctrlFree c x h
    · exact ih x h

/-- The in-loop control escape is the identity on control-free text. -/
theorem escapeAllControls_id (cs : List Char) (h : ∀ x ∈ cs, 32 ≤ x.toNat) :
    escapeAllControls cs = cs := by
  induction cs with
  | nil => rfl
  | cons c cs ih =>
    rw [escapeAllControls_cons]
    have hc : escCtrlChar c = [c] := by
      unfold escCtrlChar
      rw [if_neg (Nat.not_lt.mpr (h c (List.mem_cons_self c cs)))]
    rw [hc, ih (fun x hx => h x (List.mem_cons_of_mem c hx))]
    rfl

/-- Bumping the counter leaves the loop result unchanged. -/
theorem bump_fst (r : Except RepairError JSON × Nat) : (bump r).1 = r.1 := rfl

/-- A successful final parse is a successful strict parse of that text. -/
theorem finalParse_ok (cs : List Char) (v : JSON)
    (h : (finalParse cs).1 = .ok v) : JSONparseL cs = .ok v := by
  unfold finalParse at h
  cases hp : JSONparseL cs with
  | ok w => rw [hp] at h; cases h; rfl
  | error e => rw [hp] at h; cases h

/-- Any value returned by the retry loop was produced by a successful
strict parse of a text reachable from the loop's input by the loop's own
repairs. -/
theorem repairLoop_sound : ∀ (fuel : Nat) (cs : List Char) (v : JSON),
    (repairLoop fuel cs).1 = .ok v →
    ∃ t, Reaches cs t ∧ JSONparseL t = .ok v := by
  intro fuel
  induction fuel with
  | zero =>
    intro cs v h
    exact ⟨cs, Reaches.refl cs, finalParse_ok cs v h⟩
  | succ fuel ih =>
    intro cs v h
    unfold repairLoop at h
    cases hp : JSONparseL cs with
    | ok w =>
      rw [hp] at h; dsimp only at h; cases h
      exact ⟨cs, Reaches.refl cs, hp⟩
    | error e =>
      rw [hp] at h; dsimp only at h
      by_cases hf : fuel = 0
      · rw [if_pos hf, bump_fst] at h
        exact ⟨cs, Reaches.refl cs, finalParse_ok cs v h⟩
      · rw [if_neg hf] at h
        cases e with
        | expectedCommaOrBrace p =>
          dsimp only at h; rw [bump_fst] at h
          obtain ⟨t, hr, hpt⟩ := ih (fixMissingComma cs p) v h
          exact ⟨t, Reaches.step (JErr.expectedCommaOrBrace p) hp hr, hpt⟩
        | badControl p =>
          dsimp only at h; rw [bump_fst] at h
          obtain ⟨t, hr, hpt⟩ := ih (escapeAllControls cs) v h
          exact ⟨t, Reaches.step (JErr.badControl p) hp hr, hpt⟩
        | other =>
          dsimp only at h; rw [bump_fst] at h
          exact ⟨cs, Reaches.refl cs, finalParse_ok cs v h⟩

/-- The final parse counts as exactly one strict-parse call. -/
theorem finalParse_snd (cs : List Char) : (finalParse cs).2 = 1 := by
  unfold finalParse
  cases JSONparseL cs <;> rfl

/-- The retry loop performs at most `fuel + 1` strict-parse calls. -/
theorem repairLoop_calls : ∀ (fuel : Nat) (cs : List Char),
    (repairLoop fuel cs).2 ≤ fuel + 1 := by
  intro fuel
  induction fuel with
  | zero => intro cs; rw [repairLoop, finalParse_snd]
  | succ fuel ih =>
    intro cs
    unfold repairLoop
    cases JSONparseL cs with
    | ok w => simp
    | error e =>
      dsimp only
      by_cases hf : fuel = 0
      · rw [if_pos hf]
        show (finalParse cs).2 + 1 ≤ fuel + 1 + 1
        rw [finalParse_snd]; omega
      · rw [if_neg hf]
        cases e with
        | expectedCommaOrBrace p =>
          show (repairLoop fuel (fixMissingComma cs p)).2 + 1 ≤ fuel + 1 + 1
          exact Nat.add_le_add_right (ih _) 1
        | badControl p =>
          show (repairLoop fuel (escapeAllControls cs)).2 + 1 ≤ fuel + 1 + 1
          exact Nat.add_le_add_right (ih _) 1
        | other =>
          show (finalParse cs).2 + 1 ≤ fuel + 1 + 1
          rw [finalParse_snd]; omega

/-- A successful probe of the backward scan is exactly an unescaped quote
whose next non-whitespace position is in range and opens a value. -/
theorem checkAt_some (cs : List Char) (i j : Nat)
    (h : checkAt cs i = some j) :
    cs.getD i ' ' = '"' ∧ (i = 0 ∨ ¬ cs.getD (i - 1) ' ' = '\\') ∧
    j = wsEnd cs (i + 1) ∧ j < cs.length ∧ isOpenerCh (cs.getD j ' ') = true := by
  unfold checkAt at h
  split at h
  · next h1 =>
    dsimp only at h
    split at h
    · next h2 =>
      injection h with hj
      subst hj
      simp only [Bool.and_eq_true, Bool.or_eq_true, decide_eq_true_eq,
        Bool.not_eq_true', decide_eq_false_iff_not] at h1 h2
      exact ⟨h1.1, h1.2, rfl, h2.1, h2.2⟩
    · next => cases h
  · next => cases h

/-- A hit of the backward scan is the probe at the highest index within the
window that succeeds, every higher index failing. -/
theorem backScanAux_some (cs : List Char) (lo : Nat) : ∀ i j : Nat,
    backScanAux cs lo i = some j →
    ∃ i0, i0 ≤ i ∧ lo ≤ i0 ∧ checkAt cs i0 = some j ∧
      ∀ i', i0 < i' → i' ≤ i → checkAt cs i' = none := by
  intro i
  induction i with
  | zero =>
    intro j h
    unfold backScanAux at h
    by_cases hlo : lo = 0
    · rw [if_pos hlo] at h
      exact ⟨0, Nat.le_refl 0, hlo ▸ Nat.le_refl 0, h,
        fun i' h1 h2 => absurd (Nat.lt_of_lt_of_le h1 h2) (Nat.lt_irrefl 0)⟩
    · rw [if_neg hlo] at h; cases h
  | succ i ih =>
    intro j h
    unfold backScanAux at h
    by_cases hlt : i + 1 < lo
    · rw [if_pos hlt] at h; cases h
    · rw [if_neg hlt] at h
      cases hc : checkAt cs (i + 1) with
      | some j2 =>
        rw [hc] at h; dsimp only at h
        injection h with hj
        subst hj
        exact ⟨i + 1, Nat.le_refl _, by omega, hc,
          fun i' h1 h2 => absurd (Nat.lt_of_lt_of_le h1 h2) (Nat.lt_irrefl _)⟩
      | none =>
        rw [hc] at h; dsimp only at h
        obtain ⟨i0, h1, h2, h3, h4⟩ := ih j h
        refine ⟨i0, by omega, h2, h3, fun i' hgt hle => ?_⟩
        rcases Nat.lt_or_ge i' (i + 1) with hlt2 | hge
        · exact h4 i' hgt (by omega)
        · have hi : i' = i + 1 := by omega
          subst hi; exact hc

/-- When the backward scan misses, every probe in its window fails. -/
theorem backScanAux_none (cs : List Char) (lo : Nat) : ∀ i : Nat,
    backScanAux cs lo i = none →
    ∀ i', lo ≤ i' → i' ≤ i → checkAt cs i' = none := by
  intro i
  induction i with
  | zero =>
    intro h i' h1 h2
    have hz : i' = 0 := Nat.le_zero.mp h2
    subst hz
    have hlo : lo = 0 := Nat.le_zero.mp h1
    unfold backScanAux at h
    rw [if_pos hlo] at h
    exact h
  | succ i ih =>
    intro h i' h1 h2
    unfold backScanAux at h
    by_cases hlt : i + 1 < lo
    · omega
    · rw [if_neg hlt] at h
      cases hc : checkAt cs (i + 1) with
      | some j2 => rw [hc] at h; cases h
      | none =>
        rw [hc] at h; dsimp only at h
        rcases Nat.lt_or_ge i' (i + 1) with hlt2 | hge
        · exact ih h i' h1 (by omega)
        · have hi : i' = i + 1 := by omega
          subst hi; exact hc

/-- Claim C1: every value the repair-parse routine returns was obtained
from a successful run of the strict JSON parser on a working text reachable
from the normalized input by the loop's own repairs; a result that no
strict parse produced is never returned, so no partially repaired unparsed
text can be the result. -/
theorem claim1_returns_only_strictly_parsed_values : ∀ (s : String) (v : JSON),
    (parseJSONWithRepairCount s).1 = .ok v →
    ∃ t, Reaches (preprocess s.data) t ∧ JSONparseL t = .ok v := by
  intro s v h
  unfold parseJSONWithRepairCount repairEngine at h
  by_cases hne : s.data = []
  · rw [if_pos hne] at h; simp at h
  · rw [if_neg hne] at h
    exact repairLoop_sound maxAttempts (preprocess s.data) v h

/-- Witness for claim C1: the engine succeeds on an empty object and the
value indeed comes from a strict parse. -/
theorem claim1_witness :
    ∃ t, Reaches (preprocess (("\x7b\x7d").data)) t ∧
      JSONparseL t = .ok (JSON.obj []) :=
  claim1_returns_only_strictly_parsed_values ("\x7b\x7d") (JSON.obj []) (by rfl)

/-- Counterexample to claim C2: the text consisting of the five characters
quote, brace, brace, quote is syntactically valid JSON (the string whose
content is a brace pair), yet the repair-parse routine slices to the brace
span and returns the empty object, not the string the strict parser
returns. -/
theorem claim2_counterexample :
    JSONparse ("\"\x7b\x7d\"") = .ok (JSON.str ("\x7b\x7d")) ∧
    (parseJSONWithRepairCount ("\"\x7b\x7d\"")).1 = .ok (JSON.obj []) ∧
    JSON.str ("\x7b\x7d") ≠ JSON.obj [] :=
  ⟨rfl, rfl, fun h => JSON.noConfusion h⟩

/-- Claim C2 as amended: for a syntactically valid JSON text that the
normalization passes leave unchanged, the repair-parse routine returns
exactly the strict parser's value and consumes exactly one parse
attempt. -/
theorem claim2_idempotent_when_normalization_is_identity
    (cs : List Char) (v : JSON) (hne : cs ≠ [])
    (hfix : preprocess cs = cs) (hparse : JSONparseL cs = .ok v) :
    repairEngine cs = (.ok v, 1) := by
  unfold repairEngine
  rw [if_neg hne, hfix]
  show repairLoop (4 + 1) cs = (.ok v, 1)
  unfold repairLoop
  rw [hparse]

/-- Witness for claim C2: a plain one-field object is untouched by the
normalization and parses in one attempt. -/
theorem claim2_witness :
    preprocess (("\x7b\"a\":1\x7d").data) = ("\x7b\"a\":1\x7d").data ∧
    repairEngine (("\x7b\"a\":1\x7d").data) =
      (.ok (JSON.obj [("a", JSON.num 1 0)]), 1) :=
  ⟨by rfl, claim2_idempotent_when_normalization_is_identity _ _
    (by decide) (by rfl) (by rfl)⟩

/-- Claim C3: the routine terminates on every input, performing at most
`maxAttempts` (five) classification cycles plus the one final parse — never
more than six strict-parse calls in all, on any input. -/
theorem claim3_parse_attempts_bounded : ∀ s : String,
    (parseJSONWithRepairCount s).2 ≤ maxAttempts + 1 := by
  intro s
  unfold parseJSONWithRepairCount repairEngine
  by_cases hne : s.data = []
  · rw [if_pos hne]; exact Nat.zero_le _
  · rw [if_neg hne]; exact repairLoop_calls maxAttempts _

/-- Counterexample to claim C4: the scanner of the simple-evaluation
variant (src/unnamed/part_000, one of the claim's cited code locations)
does not emit a raw newline inside a string as a backslash-n escape — it
replaces it with a space — and it lets a control character below 0x20 that
is not newline, return or tab through unescaped. -/
theorem claim4_counterexample :
    fixControlCharsP0 (("\"a\nb\"").data) = ("\"a b\"").data ∧
    checkNoCtrl (fixControlCharsP0 (("\"\x01\"").data)) = false :=
  ⟨rfl, rfl⟩

/-- Claim C4 as amended: for the String-State Scanner of the canonical
engine (processEvaluation.js / processMarkingSchemeExtraction.js), the
output contains no unescaped control character inside a string literal,
for every input text and with the escape and quote-toggle rules taking
their stated precedence. -/
theorem claim4_scanner_output_has_no_unescaped_controls :
    ∀ cs : List Char, checkNoCtrl (fixControlChars cs) = true :=
  fun cs => ctrlOK_fixCtrl cs false false

/-- Counterexample to claim C5: the simple-evaluation variant
(src/unnamed/part_000, one of the claim's cited code locations) parses the
embedded-raw-newline input without a control-character error but returns
the note field with the newline replaced by a space, not the original
two-line string. -/
theorem claim5_counterexample :
    parseJSONWithRepairP0 ("\x7b\"note\":\"line1\nline2\"\x7d") =
      .ok (JSON.obj [("note", JSON.str ("line1 line2"))]) ∧
    ("line1 line2" : String) ≠ ("line1\nline2" : String) :=
  ⟨rfl, by decide⟩

/-- Claim C5 as amended: the canonical repair-parse routine succeeds on the
embedded-raw-newline input and preserves the newline in the parsed note
field. -/
theorem claim5_newline_preserved_by_canonical_engine :
    (parseJSONWithRepairCount ("\x7b\"note\":\"line1\nline2\"\x7d")).1 =
      .ok (JSON.obj [("note", JSON.str ("line1\nline2"))]) := rfl

/-- Counterexample to claim C6: on an input with no brace at all the
routine does not fail with any boundary error — it proceeds into the parse
loop and here even succeeds, returning the array. -/
theorem claim6_counterexample :
    braceGuard (("[1, 2]").data) = false ∧
    (parseJSONWithRepairCount ("[1, 2]")).1 =
      .ok (JSON.arr [JSON.num 1 0, JSON.num 2 0]) :=
  ⟨rfl, rfl⟩

/-- Claim C6 as amended: when no `\x7b` exists or the last `\x7d` does not
come after the first `\x7b`, the boundary-extraction step leaves the text
unchanged and processing simply continues; no dedicated failure exists. -/
theorem claim6_failed_guard_leaves_text_unchanged
    (cs : List Char) (h : braceGuard cs = false) :
    sliceBraces cs = cs := by
  unfold braceGuard at h
  unfold sliceBraces
  cases h1 : firstIdxOf cs '{' with
  | none => rfl
  | some f =>
    cases h2 : lastIdxOf cs '}' with
    | none => rfl
    | some l =>
      rw [h1, h2] at h
      dsimp only at h
      dsimp only
      rw [if_neg (by simp only [decide_eq_false_iff_not] at h; exact h)]

/-- Witness for claim C6: a braceless input fails the guard and passes
through the boundary extractor unchanged. -/
theorem claim6_witness :
    braceGuard (("[1]").data) = false ∧
    sliceBraces (("[1]").data) = ("[1]").data :=
  ⟨rfl, claim6_failed_guard_leaves_text_unchanged _ rfl⟩

/-- Counterexample to claim C7: at an offset holding a closing brace — a
character that does not open a new value — the code inserts the comma at
the offset while the spec's described repair (which would only do so before
a quote, an opening brace or an opening bracket) leaves the text unchanged,
its backward scan finding no insertion point. -/
theorem claim7_counterexample :
    fixMissingComma (("\x7b\"a\":\"x\"\x7d").data) 8 =
      ("\x7b\"a\":\"x\",\x7d").data ∧
    specMissingComma (("\x7b\"a\":\"x\"\x7d").data) 8 =
      ("\x7b\"a\":\"x\"\x7d").data ∧
    ("\x7b\"a\":\"x\",\x7d").data ≠ ("\x7b\"a\":\"x\"\x7d").data :=
  ⟨rfl, rfl, by decide⟩

/-- Claim C7 as amended: at an in-range offset, the repair inserts a comma
at the offset when the preceding character ends a string or value and the
character at the offset is a closing quote, `\x7d` or `]` (not an opening
context, as the spec words it); otherwise it scans backward within a
50-character window for the most recent unescaped closing quote followed by
whitespace and an opening quote, brace or bracket, inserting the comma
before that opener, and leaves the text unchanged when every probe in the
window fails. -/
theorem claim7_missing_separator_repair_characterized
    (cs : List Char) (pos : Nat) (hpos : pos < cs.length) :
    (fwdCond cs pos = true → fixMissingComma cs pos = insertAt cs pos) ∧
    (fwdCond cs pos = false →
      (∃ i j, pos - 50 ≤ i ∧ i < pos ∧
         cs.getD i ' ' = '"' ∧ (i = 0 ∨ ¬ cs.getD (i - 1) ' ' = '\\') ∧
         j = wsEnd cs (i + 1) ∧ j < cs.length ∧
         isOpenerCh (cs.getD j ' ') = true ∧
         (∀ i', i < i' → i' < pos → checkAt cs i' = none) ∧
         fixMissingComma cs pos = insertAt cs j) ∨
      ((∀ i', pos - 50 ≤ i' → i' < pos → checkAt cs i' = none) ∧
         fixMissingComma cs pos = cs)) := by
  constructor
  · intro hf
    unfold fixMissingComma
    rw [if_pos hpos, if_pos hf]
  · intro hf
    unfold fixMissingComma
    rw [if_pos hpos, if_neg (by rw [hf]; exact Bool.false_ne_true)]
    cases pos with
    | zero =>
      exact Or.inr ⟨fun i' h1 h2 => absurd h2 (Nat.not_lt_zero i'), rfl⟩
    | succ p =>
      dsimp only
      cases hscan : backScanAux cs (p + 1 - 50) p with
      | some j =>
        obtain ⟨i0, hle, hlo, hchk, hmax⟩ :=
          backScanAux_some cs (p + 1 - 50) p j hscan
        obtain ⟨q1, q2, q3, q4, q5⟩ := checkAt_some cs i0 j hchk
        exact Or.inl ⟨i0, j, hlo, by omega, q1, q2, q3, q4, q5,
          fun i' hgt hlt => hmax i' hgt (by omega), rfl⟩
      | none =>
        exact Or.inr ⟨fun i' h1 h2 =>
          backScanAux_none cs (p + 1 - 50) p hscan i' h1 (by omega), rfl⟩

/-- Witness for claim C7: the direct-insertion branch at the offset of the
closing brace. -/
theorem claim7_witness :
    fwdCond (("\x7b\"a\":\"x\"\x7d").data) 8 = true ∧
    fixMissingComma (("\x7b\"a\":\"x\"\x7d").data) 8 =
      insertAt (("\x7b\"a\":\"x\"\x7d").data) 8 :=
  ⟨rfl, (claim7_missing_separator_repair_characterized _ 8 (by decide)).1 rfl⟩

/-- Counterexample to claim C8: the in-loop bad-control-character repair is
not a re-run of the String-State Scanner — on a newline outside any string
literal the scanner changes nothing while the in-loop repair escapes it. -/
theorem claim8_counterexample :
    escapeAllControls (("a\nb").data) = ("a\\u000ab").data ∧
    fixControlChars (("a\nb").data) = ("a\nb").data ∧
    ("a\\u000ab").data ≠ ("a\nb").data :=
  ⟨rfl, rfl, by decide⟩

/-- Claim C8 as amended: the in-loop bad-control-character repair is the
global substitution escaping every character below 0x20 anywhere in the
text, and it is idempotent — a second application to its own output changes
nothing. -/
theorem claim8_global_escape_idempotent (cs : List Char) :
    escapeAllControls (escapeAllControls cs) = escapeAllControls cs :=
  escapeAllControls_id _ (escapeAllControls_ctrlFree cs)

/-- Claim C9: a missing or non-string argument and the empty string are
rejected immediately with the invalid-input error, before any boundary
extraction, normalization or parse attempt — zero strict-parse calls are
consumed. -/
theorem claim9_invalid_input_rejected_without_attempt :
    parseJSONWithRepairJS none = (.error .invalidInput, 0) ∧
    parseJSONWithRepairJS (some ("")) = (.error .invalidInput, 0) :=
  ⟨rfl, rfl⟩

/-- Claim C10: `cleanJSON` rewrites a single-quoted string value in a
structural position into a double-quoted JSON string, so the single-quoted
input parses successfully to the object with the double-quoted value. -/
theorem claim10_single_quoted_value_rewritten :
    cleanJSON ("\x7b\"a\": \x27b\x27\x7d") = ("\x7b\"a\": \"b\"\x7d") ∧
    JSONparse (cleanJSON ("\x7b\"a\": \x27b\x27\x7d")) =
      .ok (JSON.obj [("a", JSON.str ("b"))]) :=
  ⟨rfl, rfl⟩
